import Mathlib

set_option autoImplicit false

/-!
Shallow embedding of the integer-validation core of pydantic-core:
`src/validators/validation_state.rs` and `src/validators/int.rs`.

Pure data is translated structure-for-structure; stateful methods become
explicit state-passing functions returning the updated `ValidationState`.
Types that the two embedded files use but that live elsewhere (the `Int`
carrier of `crate::input`, `Extra`, `is_strict`, and jiter's `PartialMode`
and `StringCacheMode`) are modelled from the specification and documented
as such on each definition.
-/

/-- The exactness ladder of `validation_state.rs` (`enum Exactness`), declared
`Lax, Strict, Exact`; Rust derives `Ord` from declaration order, so
`Lax < Strict < Exact`. -/
inductive Exactness where
  | Lax
  | Strict
  | Exact
deriving DecidableEq, Repr

/-- The rank induced by the derived Rust ordering (declaration order). -/
def Exactness.rank : Exactness → Nat
  | .Lax => 0
  | .Strict => 1
  | .Exact => 2

/-- Minimum of two exactness levels under `Lax < Strict < Exact`. -/
def Exactness.minE (a b : Exactness) : Exactness :=
  if a.rank ≤ b.rank then a else b

/-- Modelled from the spec: jiter's `PartialMode`, an external dependency of
`validation_state.rs`, with variants `{Off, On, TrailingStrings}`. -/
inductive PartialMode where
  | Off
  | On
  | TrailingStrings
deriving DecidableEq, Repr

/-- Modelled from the spec: a partial mode is "active" when partial acceptance
is enabled, i.e. the mode is not `Off`. -/
def PartialMode.is_active : PartialMode → Bool
  | .Off => false
  | .On => true
  | .TrailingStrings => true

/-- Modelled from the spec: jiter's `StringCacheMode`, the string-cache policy
carried by `Extra`; its precise variants play no role in the claims. -/
inductive StringCacheMode where
  | All
  | Keys
  | None
deriving DecidableEq, Repr

/-- Modelled from the spec: the `Extra` context struct (`super::Extra`, not one
of the two embedded files): strict override, by_alias, by_name, the
string-cache policy, plus a user context (modelled as an abstract number). -/
structure Extra where
  strict : Option Bool
  by_alias : Option Bool
  by_name : Option Bool
  cache_str : StringCacheMode
  context : Option Nat
deriving DecidableEq, Repr

/-- `ValidationState` of `validation_state.rs`. The borrowed
`RecursionState` is modelled as an abstract number (its internals are
outside the embedded files and no claim touches them). -/
structure ValidationState where
  recursion_guard : Nat
  exactness : Option Exactness
  fields_set_count : Option Nat
  allow_partial : PartialMode
  extra : Extra
deriving DecidableEq, Repr

/-- `ValidationState::new`: exactness and the fields-set tally start at
`None`. -/
def ValidationState.new (extra : Extra) (recursion_guard : Nat)
    ( allow_partial : PartialMode) : ValidationState :=
  { recursion_guard := recursion_guard, exactness := none, fields_set_count := none,
    allow_partial := allow_partial, extra := extra }

/-- `ValidationState::strict_or`: `self.extra.strict.unwrap_or(default)`. -/
def ValidationState.strict_or (s : ValidationState) (default : Bool) : Bool :=
  s.extra.strict.getD default

/-- `ValidationState::validate_by_alias_or`:
`self.extra.by_alias.or(default).unwrap_or(true)`. -/
def ValidationState.validate_by_alias_or (s : ValidationState) (default : Option Bool) : Bool :=
  ((s.extra.by_alias).or default).getD true

/-- `ValidationState::validate_by_name_or`:
`self.extra.by_name.or(default).unwrap_or(false)`. -/
def ValidationState.validate_by_name_or (s : ValidationState) (default : Option Bool) : Bool :=
  ((s.extra.by_name).or default).getD false

/-- `ValidationState::floor_exactness` (validation_state.rs lines 80-90),
translated match-arm by match-arm: `None` and `Some(Lax)` change nothing,
`Some(Strict)` drops to `Lax` only on a `Lax` observation, `Some(Exact)` is
replaced by the observation. -/
def ValidationState.floor_exactness (s : ValidationState) (exactness : Exactness) :
    ValidationState :=
  match s.exactness with
  | none | some .Lax => s
  | some .Strict =>
      if exactness = Exactness.Lax then { s with exactness := some Exactness.Lax } else s
  | some .Exact => { s with exactness := some exactness }

/-- `ValidationState::add_fields_set`:
`*self.fields_set_count.get_or_insert(0) += fields_set_count`. -/
def ValidationState.add_fields_set (s : ValidationState) (fields_set_count : Nat) :
    ValidationState :=
  { s with fields_set_count := some (s.fields_set_count.getD 0 + fields_set_count) }

/-- `ValidationState::cache_str`: the policy held by `extra`. -/
def ValidationState.cache_str (s : ValidationState) : StringCacheMode :=
  s.extra.cache_str

/-- `ValidationStateWithReboundExtra`: the handle returned by `rebind_extra`,
holding the (mutably borrowed) state, whose `extra` the closure has already
mutated, together with the saved pre-scope `extra`. -/
structure ValidationStateWithReboundExtra where
  state : ValidationState
  old_extra : Extra
deriving DecidableEq, Repr

/-- `ValidationState::rebind_extra` (validation_state.rs lines 46-53): clone
the current `extra` into `old_extra`, apply `f` to the live `extra`, return
the handle. -/
def ValidationState.rebind_extra (s : ValidationState) (f : Extra → Extra) :
    ValidationStateWithReboundExtra :=
  { state := { s with extra := f s.extra }, old_extra := s.extra }

/-- `Drop for ValidationStateWithReboundExtra` (validation_state.rs lines
130-134): swap the saved `extra` back into the state. -/
def ValidationStateWithReboundExtra.drop (h : ValidationStateWithReboundExtra) :
    ValidationState :=
  { h.state with extra := h.old_extra }

/-- A whole `rebind_extra` scope run to completion: create the handle, run the
scope body on the rebound state, and fire the handle's destructor on either
exit path. The body returns the final state next to its `Except` outcome,
mirroring mutation through the handle's `DerefMut`; the destructor runs both
when the body completes normally and when it propagates an error. -/
def ValidationState.run_rebind_scope {ε α : Type} (s : ValidationState) (f : Extra → Extra)
    (body : ValidationState → ValidationState × Except ε α) : ValidationState × Except ε α :=
  let h := s.rebind_extra f
  match body h.state with
  | (s1, Except.ok a) =>
      (ValidationStateWithReboundExtra.drop { state := s1, old_extra := h.old_extra },
       Except.ok a)
  | (s1, Except.error e) =>
      (ValidationStateWithReboundExtra.drop { state := s1, old_extra := h.old_extra },
       Except.error e)

/-- `EnumerateLastPartial` (validation_state.rs lines 137-168) drained into a
list: the iterator keeps a single-item lookahead `next_item` and a running
`index`; each `next()` yields
`(index, allow_partial.is_active() && next_item.is_none(), item)` where
`next_item` is the freshly pulled lookahead.  Here the lookahead is the head
of the remaining list, so its `is_none()` is `rest.isEmpty`. -/
def EnumerateLastPartial.toListFrom {α : Type} ( allow_partial : PartialMode) (index : Nat) :
    Option α → List α → List (Nat × Bool × α)
  | none, _ => []
  | some a, rest =>
      (index, allow_partial.is_active && rest.isEmpty, a) ::
        (match rest with
         | [] => []
         | b :: tail => EnumerateLastPartial.toListFrom allow_partial (index + 1) (some b) tail)

/-- `EnumerateLastPartial::new` primes the lookahead with the iterator's first
element (`let next_item = iter.next()`), then the iterator is drained. -/
def EnumerateLastPartial.toList {α : Type} ( allow_partial : PartialMode) (l : List α) :
    List (Nat × Bool × α) :=
  EnumerateLastPartial.toListFrom allow_partial 0 l.head? l.tail

/-- `ValidationState::enumerate_last_partial` (validation_state.rs lines
59-61): wrap the iterator with the state's partial mode. -/
def ValidationState.enumerate_last_partial {α : Type} (s : ValidationState) (l : List α) :
    List (Nat × Bool × α) :=
  EnumerateLastPartial.toList s.allow_partial l

/-- Modelled from the spec: the `Int` carrier of `crate::input` (not one of
the two embedded files): a sum of a machine-word integer (`Small`) and an
arbitrary-precision big integer (`Big`).  Payloads are mathematical integers;
the machine-word range plays no role in the claims. -/
inductive IntValue where
  | Small : Int → IntValue
  | Big : Int → IntValue
deriving DecidableEq, Repr

/-- The numeric value an `IntValue` carries, independent of variant. -/
def IntValue.toInt : IntValue → Int
  | .Small n => n
  | .Big n => n

/-- Modelled from the spec: the carrier's equality is "consistent across
variants" — it compares the numeric values, so `Small 0` equals `Big 0`. -/
def IntValue.beq (a b : IntValue) : Bool :=
  a.toInt == b.toInt

/-- Modelled from the spec: strict less-than of the total order consistent
across variants. -/
def IntValue.ltb (a b : IntValue) : Bool :=
  decide (a.toInt < b.toInt)

/-- Modelled from the spec: less-or-equal of the cross-variant total order. -/
def IntValue.leb (a b : IntValue) : Bool :=
  decide (a.toInt ≤ b.toInt)

/-- Modelled from the spec: strict greater-than of the cross-variant total
order. -/
def IntValue.gtb (a b : IntValue) : Bool :=
  decide (b.toInt < a.toInt)

/-- Modelled from the spec: greater-or-equal of the cross-variant total
order. -/
def IntValue.geb (a b : IntValue) : Bool :=
  decide (b.toInt ≤ a.toInt)

/-- Modelled from the spec: `%` on the carrier, defined for all pairs by
promotion through the big-integer path, with the result sign-consistent with
the dividend (the host language's truncated remainder, `Int.tmod`). -/
def IntValue.rem (a b : IntValue) : IntValue :=
  .Big (Int.tmod a.toInt b.toInt)

/-- The constraint error kinds `ConstrainedIntValidator::validate` emits
(the `ErrorType` variants used in int.rs), each carrying the offending bound.
The `context` slot is always `None` at this layer and is omitted. -/
inductive ErrorType where
  | MultipleOf (multiple_of : IntValue)
  | LessThanEqual (le : IntValue)
  | LessThan (lt : IntValue)
  | GreaterThanEqual (ge : IntValue)
  | GreaterThan (gt : IntValue)
deriving DecidableEq, Repr

/-- Validation errors: a constraint failure raised in int.rs, or an error
propagated unchanged from the input's own `validate_int` (abstract here,
identified by a code). -/
inductive ValError where
  | constraint (e : ErrorType)
  | input_error (code : Nat)
deriving DecidableEq, Repr

/-- Modelled from the spec: `IntMatch`, the result of coercion — the coerced
carrier plus the exactness level of the match. -/
structure IntMatch where
  value : IntValue
  exactness : Exactness
deriving DecidableEq, Repr

/-- Modelled from the spec: `IntMatch::unpack(state)` records the match's
exactness into the state via `floor_exactness` and returns the carrier. -/
def IntMatch.unpack (m : IntMatch) (s : ValidationState) : IntValue × ValidationState :=
  (m.value, s.floor_exactness m.exactness)

/-- `IntValidator` (int.rs line 14): the unconstrained validator, holding only
its per-validator strict default. -/
structure IntValidator where
  strict : Bool
deriving DecidableEq, Repr

/-- `ConstrainedIntValidator` (int.rs lines 63-71): strict default plus the
five optional bounds. -/
structure ConstrainedIntValidator where
  strict : Bool
  multiple_of : Option IntValue
  le : Option IntValue
  lt : Option IntValue
  ge : Option IntValue
  gt : Option IntValue
deriving DecidableEq, Repr

/-- `Validator for IntValidator::validate` (int.rs lines 46-61): coerce with
the effective strictness, record exactness via `unpack`, return the carrier
(conversion to a host object is the identity here); a coercion error is
propagated with the state untouched. -/
def IntValidator.validate (v : IntValidator) (input : Bool → Except ValError IntMatch)
    (state : ValidationState) : ValidationState × Except ValError IntValue :=
  match input (state.strict_or v.strict) with
  | Except.error e => (state, Except.error e)
  | Except.ok val_match =>
      let u := val_match.unpack state
      (u.2, Except.ok u.1)

/-- The `multiple_of` arm of `ConstrainedIntValidator::validate` (int.rs lines
85-95): fail when `&int_value % multiple_of != Int::Big(BigInt::from(0))`. -/
def checkMultipleOf (multiple_of : Option IntValue) (int_value : IntValue) : Option ErrorType :=
  match multiple_of with
  | some m =>
      if (int_value.rem m).beq (IntValue.Big 0) = false then some (.MultipleOf m) else none
  | none => none

/-- The `le` arm (int.rs lines 96-106): fail when `&int_value > le`. -/
def checkLe (le : Option IntValue) (int_value : IntValue) : Option ErrorType :=
  match le with
  | some k => if int_value.gtb k then some (.LessThanEqual k) else none
  | none => none

/-- The `lt` arm (int.rs lines 107-117): fail when `&int_value >= lt`. -/
def checkLt (lt : Option IntValue) (int_value : IntValue) : Option ErrorType :=
  match lt with
  | some k => if int_value.geb k then some (.LessThan k) else none
  | none => none

/-- The `ge` arm (int.rs lines 118-128): fail when `&int_value < ge`. -/
def checkGe (ge : Option IntValue) (int_value : IntValue) : Option ErrorType :=
  match ge with
  | some k => if int_value.ltb k then some (.GreaterThanEqual k) else none
  | none => none

/-- The `gt` arm (int.rs lines 129-139): fail when `&int_value <= gt`. -/
def checkGt (gt : Option IntValue) (int_value : IntValue) : Option ErrorType :=
  match gt with
  | some k => if int_value.leb k then some (.GreaterThan k) else none
  | none => none

/-- The early-return chain of int.rs lines 85-139: the five arms in source
order, the first failure short-circuiting the rest. -/
def ConstrainedIntValidator.checkConstraints (v : ConstrainedIntValidator)
    (int_value : IntValue) : Option ErrorType :=
  Option.orElse (checkMultipleOf v.multiple_of int_value) (fun _ =>
  Option.orElse (checkLe v.le int_value) (fun _ =>
  Option.orElse (checkLt v.lt int_value) (fun _ =>
  Option.orElse (checkGe v.ge int_value) (fun _ =>
  checkGt v.gt int_value))))

/-- `Validator for ConstrainedIntValidator::validate` (int.rs lines 75-141):
coerce and unpack exactly as the unconstrained validator, then run the
constraint chain; the first failing arm's error is returned, otherwise the
carrier.  `as_int` on the carrier is the identity here. -/
def ConstrainedIntValidator.validate (v : ConstrainedIntValidator)
    (input : Bool → Except ValError IntMatch) (state : ValidationState) :
    ValidationState × Except ValError IntValue :=
  match input (state.strict_or v.strict) with
  | Except.error e => (state, Except.error e)
  | Except.ok val_match =>
      let u := val_match.unpack state
      match v.checkConstraints u.1 with
      | some err => (u.2, Except.error (ValError.constraint err))
      | none => (u.2, Except.ok u.1)

/-- A host value held in a schema dictionary; the integer validator's build
path only consults booleans (for `strict`) and carrier integers (bounds). -/
inductive SchemaValue where
  | int (n : IntValue)
  | bool (b : Bool)
deriving DecidableEq, Repr

/-- The schema dictionary, as an association list in insertion order. -/
abbrev Schema : Type := List (String × SchemaValue)

/-- `PyDict::get_item`: the value stored at a key when the key is present —
a presence test, regardless of how falsy the stored value is. -/
def Schema.get_item (s : Schema) (key : String) : Option SchemaValue :=
  (s.find? (fun p => p.1 == key)).map (fun p => p.2)

/-- `SchemaDict::get_as` for an `Int`-typed bound: the key is present and
holds an integer (the conversion-error path of the real `get_as` is outside
the claims). -/
def Schema.get_as_int (s : Schema) (key : String) : Option IntValue :=
  match s.get_item key with
  | some (.int n) => some n
  | _ => none

/-- Modelled from the spec: `is_strict` of `crate::build_tools` — the schema's
`strict` key, else the config's, defaulting to false. -/
def is_strict (schema : Schema) (config : Option Schema) : Bool :=
  match schema.get_item "strict" with
  | some (.bool b) => b
  | _ =>
      match config.bind (fun c => c.get_item "strict") with
      | some (.bool b) => b
      | _ => false

/-- The two validator variants the builder can produce (the corner of
`CombinedValidator` relevant to int.rs). -/
inductive BuiltValidator where
  | unconstrained (v : IntValidator)
  | constrained (v : ConstrainedIntValidator)
deriving DecidableEq, Repr

/-- `ConstrainedIntValidator::build` (int.rs lines 148-161): read `strict` and
the five bounds from the schema. -/
def ConstrainedIntValidator.build (schema : Schema) (config : Option Schema) :
    ConstrainedIntValidator :=
  { strict := is_strict schema config,
    multiple_of := schema.get_as_int "multiple_of",
    le := schema.get_as_int "le",
    lt := schema.get_as_int "lt",
    ge := schema.get_as_int "ge",
    gt := schema.get_as_int "gt" }

/-- `IntValidator::build` (int.rs lines 22-41): presence-test the five
constraint keys with `get_item(...).is_some()`; any present selects the
constrained variant, otherwise the unconstrained one. -/
def IntValidator.build (schema : Schema) (config : Option Schema) : BuiltValidator :=
  let use_constrained :=
    (schema.get_item "multiple_of").isSome || (schema.get_item "le").isSome ||
    (schema.get_item "lt").isSome || (schema.get_item "ge").isSome ||
    (schema.get_item "gt").isSome
  if use_constrained then
    BuiltValidator.constrained (ConstrainedIntValidator.build schema config)
  else
    BuiltValidator.unconstrained { strict := is_strict schema config }

/-- Spec §4.5: `multiple_of(m)` passes iff `value % m == 0` (the spec's `%` is
the host language's truncated remainder); the violation, as a list. -/
def specMultipleOfViol (o : Option IntValue) (x : Int) : List ErrorType :=
  match o with
  | some m => if Int.tmod x m.toInt ≠ 0 then [ErrorType.MultipleOf m] else []
  | none => []

/-- Spec §4.5: `le(k)` passes iff `value ≤ k`; violation `value > k`. -/
def specLeViol (o : Option IntValue) (x : Int) : List ErrorType :=
  match o with
  | some k => if k.toInt < x then [ErrorType.LessThanEqual k] else []
  | none => []

/-- Spec §4.5: `lt(k)` passes iff `value < k`; violation `value ≥ k`. -/
def specLtViol (o : Option IntValue) (x : Int) : List ErrorType :=
  match o with
  | some k => if k.toInt ≤ x then [ErrorType.LessThan k] else []
  | none => []

/-- Spec §4.5: `ge(k)` passes iff `value ≥ k`; violation `value < k`. -/
def specGeViol (o : Option IntValue) (x : Int) : List ErrorType :=
  match o with
  | some k => if x < k.toInt then [ErrorType.GreaterThanEqual k] else []
  | none => []

/-- Spec §4.5: `gt(k)` passes iff `value > k`; violation `value ≤ k`. -/
def specGtViol (o : Option IntValue) (x : Int) : List ErrorType :=
  match o with
  | some k => if x ≤ k.toInt then [ErrorType.GreaterThan k] else []
  | none => []

/-- The spec's five violation predicates (§4.5) in the spec's fixed order
`multiple_of, le, lt, ge, gt`, collected as the list of error kinds the value
violates, stated over the mathematical value of the carrier. -/
def specViolations (v : ConstrainedIntValidator) (x : Int) : List ErrorType :=
  specMultipleOfViol v.multiple_of x ++
    (specLeViol v.le x ++ (specLtViol v.lt x ++ (specGeViol v.ge x ++ specGtViol v.gt x)))

/-- A sequence of `floor_exactness` calls, folded over the state. -/
def floorAll (s : ValidationState) (obs : List Exactness) : ValidationState :=
  obs.foldl ValidationState.floor_exactness s

/-- A fixed `Extra` used by the concrete witnesses. -/
def extra0 : Extra :=
  { strict := none, by_alias := none, by_name := none,
    cache_str := StringCacheMode.All, context := none }

/-- A fresh state over `extra0`, as `ValidationState::new` produces it. -/
def state0 : ValidationState :=
  ValidationState.new extra0 0 PartialMode.Off

/-! ## Helper lemmas -/

/-- Reduction of `toInt` on the machine-word constructor. -/
@[simp] theorem IntValue.toInt_Small (n : Int) : (IntValue.Small n).toInt = n := rfl

/-- Reduction of `toInt` on the big-integer constructor. -/
@[simp] theorem IntValue.toInt_Big (n : Int) : (IntValue.Big n).toInt = n := rfl

/-- The head of an appended list is the first head, else the second. -/
theorem head?_append_orElse {α : Type} (l1 l2 : List α) :
    (l1 ++ l2).head? = Option.orElse l1.head? (fun _ => l2.head?) := by
  cases l1 <;> rfl

/-- The `multiple_of` arm returns exactly the head of the spec's violation
chunk: the code's `% != Big(0)` test agrees with the spec predicate. -/
theorem checkMultipleOf_eq_head (o : Option IntValue) (x : IntValue) :
    checkMultipleOf o x = (specMultipleOfViol o x.toInt).head? := by
  cases o with
  | none => rfl
  | some m =>
      simp only [checkMultipleOf, specMultipleOfViol, IntValue.rem, IntValue.beq,
        IntValue.toInt_Big]
      by_cases hm : Int.tmod x.toInt m.toInt = 0
      · simp [hm]
      · simp [hm]

/-- The `le` arm agrees with the spec's violation chunk. -/
theorem checkLe_eq_head (o : Option IntValue) (x : IntValue) :
    checkLe o x = (specLeViol o x.toInt).head? := by
  cases o with
  | none => rfl
  | some k =>
      by_cases hk : k.toInt < x.toInt
      · simp [checkLe, specLeViol, IntValue.gtb, hk]
      · simp [checkLe, specLeViol, IntValue.gtb, hk]

/-- The `lt` arm agrees with the spec's violation chunk. -/
theorem checkLt_eq_head (o : Option IntValue) (x : IntValue) :
    checkLt o x = (specLtViol o x.toInt).head? := by
  cases o with
  | none => rfl
  | some k =>
      by_cases hk : k.toInt ≤ x.toInt
      · simp [checkLt, specLtViol, IntValue.geb, hk]
      · simp [checkLt, specLtViol, IntValue.geb, hk]

/-- The `ge` arm agrees with the spec's violation chunk. -/
theorem checkGe_eq_head (o : Option IntValue) (x : IntValue) :
    checkGe o x = (specGeViol o x.toInt).head? := by
  cases o with
  | none => rfl
  | some k =>
      by_cases hk : x.toInt < k.toInt
      · simp [checkGe, specGeViol, IntValue.ltb, hk]
      · simp [checkGe, specGeViol, IntValue.ltb, hk]

/-- The `gt` arm agrees with the spec's violation chunk. -/
theorem checkGt_eq_head (o : Option IntValue) (x : IntValue) :
    checkGt o x = (specGtViol o x.toInt).head? := by
  cases o with
  | none => rfl
  | some k =>
      by_cases hk : x.toInt ≤ k.toInt
      · simp [checkGt, specGtViol, IntValue.leb, hk]
      · simp [checkGt, specGtViol, IntValue.leb, hk]

/-- The early-return chain computes the head of the spec's ordered violation
list. -/
theorem checkConstraints_eq_head (v : ConstrainedIntValidator) (x : IntValue) :
    v.checkConstraints x = (specViolations v x.toInt).head? := by
  unfold ConstrainedIntValidator.checkConstraints specViolations
  rw [head?_append_orElse, head?_append_orElse, head?_append_orElse, head?_append_orElse,
    ← checkMultipleOf_eq_head, ← checkLe_eq_head, ← checkLt_eq_head, ← checkGe_eq_head,
    ← checkGt_eq_head]

/-- One `floor_exactness` call computes the minimum against the current level
when tracking, and changes nothing when not tracking. -/
theorem floor_exactness_exactness (s : ValidationState) (o : Exactness) :
    (s.floor_exactness o).exactness = s.exactness.map (fun e => e.minE o) := by
  rcases s with ⟨rg, ex, fs, ap, e⟩
  cases ex with
  | none => rfl
  | some e0 =>
      cases e0 <;> cases o <;>
        simp [ValidationState.floor_exactness, Exactness.minE, Exactness.rank]

/-- A folded sequence of `floor_exactness` calls computes the fold of `minE`
over the observations when tracking, and stays `none` otherwise. -/
theorem floorAll_exactness (obs : List Exactness) :
    ∀ s : ValidationState,
      (floorAll s obs).exactness = s.exactness.map (fun e => obs.foldl Exactness.minE e) := by
  induction obs with
  | nil =>
      intro s
      cases h : s.exactness <;> simp [floorAll, h]
  | cons o rest ih =>
      intro s
      have h1 := ih (s.floor_exactness o)
      simp only [floorAll, List.foldl_cons] at h1 ⊢
      rw [h1, floor_exactness_exactness]
      cases s.exactness <;> rfl

/-- Every triple yielded by the lookahead loop after priming with `a` carries
the flag `is_active && last`, where last means the index points at the final
element; a raised flag also identifies the item as the last element. -/
theorem toListFrom_mem {α : Type} (p : PartialMode) :
    ∀ (rest : List α) (index : Nat) (a : α) (i : Nat) (b : Bool) (x : α),
      (i, b, x) ∈ EnumerateLastPartial.toListFrom p index (some a) rest →
        ((b = true ↔ (p.is_active = true ∧ i = index + rest.length)) ∧
         (b = true → (a :: rest).getLast? = some x)) := by
  intro rest
  induction rest with
  | nil =>
      intro index a i b x hmem
      simp only [EnumerateLastPartial.toListFrom, List.isEmpty_nil, Bool.and_true,
        List.mem_singleton, Prod.mk.injEq] at hmem
      obtain ⟨hi, hb, hx⟩ := hmem
      subst hi; subst hb; subst hx
      simp
  | cons c tail ih =>
      intro index a i b x hmem
      simp only [EnumerateLastPartial.toListFrom, List.isEmpty_cons, Bool.and_false,
        List.mem_cons, Prod.mk.injEq] at hmem
      rcases hmem with ⟨hi, hb, hx⟩ | hmem
      · subst hi; subst hb; subst hx
        constructor
        · constructor
          · intro h; cases h
          · rintro ⟨-, hidx⟩
            simp only [List.length_cons] at hidx
            omega
        · intro h; cases h
      · have h2 := ih (index + 1) c i b x hmem
        constructor
        · constructor
          · intro hb
            obtain ⟨ha, hidx⟩ := h2.1.mp hb
            exact ⟨ha, by simp only [List.length_cons]; omega⟩
          · rintro ⟨ha, hidx⟩
            refine h2.1.mpr ⟨ha, ?_⟩
            simp only [List.length_cons] at hidx
            omega
        · intro hb
          rw [List.getLast?_cons_cons]
          exact h2.2 hb

/-- The lookahead loop raises the flag at most once. -/
theorem toListFrom_countP {α : Type} (p : PartialMode) :
    ∀ (rest : List α) (index : Nat) (a : α),
      (EnumerateLastPartial.toListFrom p index (some a) rest).countP (fun t => t.2.1) ≤ 1 := by
  intro rest
  induction rest with
  | nil =>
      intro index a
      simp only [EnumerateLastPartial.toListFrom, List.isEmpty_nil, Bool.and_true,
        List.countP_cons, List.countP_nil]
      cases p.is_active <;> simp
  | cons c tail ih =>
      intro index a
      simp only [EnumerateLastPartial.toListFrom, List.isEmpty_cons, Bool.and_false,
        List.countP_cons]
      simpa using ih (index + 1) c

/-! ## Claim theorems -/

/-- C1: in `ConstrainedIntValidator::validate`, after successful coercion the
five constraint predicates are evaluated in the fixed order `multiple_of, le,
lt, ge, gt` and the first failing predicate produces its error and halts: the
outcome is determined by the head of the spec-ordered violation list, so an
input violating several configured constraints yields the error of the
earliest violated predicate. -/
theorem constrained_int_first_violation_wins (v : ConstrainedIntValidator)
    (input : Bool → Except ValError IntMatch) (s : ValidationState) (m : IntMatch)
    (h : input (s.strict_or v.strict) = Except.ok m) :
    (v.validate input s).2 =
      (match (specViolations v m.value.toInt).head? with
       | some e => Except.error (ValError.constraint e)
       | none => Except.ok m.value) := by
  rcases hc : v.checkConstraints m.value with - | err <;>
    rw [checkConstraints_eq_head] at hc <;>
    simp [ConstrainedIntValidator.validate, h, IntMatch.unpack, hc,
      checkConstraints_eq_head]

/-- Witness for C1: bounds `multiple_of 3` and `le 9`, input `10` — both
violated; the returned error is `MultipleOf 3`, not `LessThanEqual 9`. -/
theorem constrained_int_first_violation_wins_witness :
    (ConstrainedIntValidator.validate
        ⟨false, some (IntValue.Small 3), some (IntValue.Small 9), none, none, none⟩
        (fun _ => Except.ok ⟨IntValue.Small 10, Exactness.Exact⟩) state0).2 =
      Except.error (ValError.constraint (ErrorType.MultipleOf (IntValue.Small 3))) := by
  have h := constrained_int_first_violation_wins
    ⟨false, some (IntValue.Small 3), some (IntValue.Small 9), none, none, none⟩
    (fun _ => Except.ok ⟨IntValue.Small 10, Exactness.Exact⟩) state0
    ⟨IntValue.Small 10, Exactness.Exact⟩ rfl
  rw [h]
  have hv : (specViolations
      ⟨false, some (IntValue.Small 3), some (IntValue.Small 9), none, none, none⟩
      (IntValue.Small 10).toInt).head? =
      some (ErrorType.MultipleOf (IntValue.Small 3)) := by decide
  rw [hv]

/-- C2 counterexample: a fresh state has `exactness = None`; recording an
`Exact` observation leaves it `None` — the code does not treat `None` as the
top of the order, it ignores observations while not tracking, refuting the
claim that an observation while `None` sets the exactness to that
observation. -/
theorem floor_exactness_none_counterexample :
    (state0.floor_exactness Exactness.Exact).exactness = none ∧
      ¬ (state0.floor_exactness Exactness.Exact).exactness = some Exactness.Exact := by
  decide

/-- C2 (amended): after any sequence of `floor_exactness` calls, when the
state started tracking at `Some e` the recorded level is the `minE`-fold of
all observations into `e` (the minimum under `Lax < Strict < Exact`); when it
started at `None` it stays `None` — observations are ignored, not adopted. -/
theorem floor_exactness_min_when_tracking (s : ValidationState) (obs : List Exactness) :
    (floorAll s obs).exactness = s.exactness.map (fun e => obs.foldl Exactness.minE e) :=
  floorAll_exactness obs s

/-- C3: whatever mutation the closure applies to `extra` and however the
scope body exits (normal completion or error propagation), once the handle is
dropped the state's `extra` equals the pre-scope snapshot; and the restoring
`drop` alters no field of the state other than `extra`. -/
theorem rebind_extra_restores_extra {ε α : Type} (s : ValidationState) (f : Extra → Extra)
    (body : ValidationState → ValidationState × Except ε α) :
    ((s.run_rebind_scope f body).1.extra = s.extra) ∧
      (∀ h : ValidationStateWithReboundExtra,
        h.drop.recursion_guard = h.state.recursion_guard ∧
        h.drop.exactness = h.state.exactness ∧
        h.drop.fields_set_count = h.state.fields_set_count ∧
        h.drop.allow_partial = h.state.allow_partial ∧
        h.drop.extra = h.old_extra) := by
  refine ⟨?_, fun h => ⟨rfl, rfl, rfl, rfl, rfl⟩⟩
  rcases hb : body (s.rebind_extra f).state with ⟨s1, r⟩
  cases r <;> simp only [ValidationState.run_rebind_scope, hb] <;> rfl

/-- C4: the comparison arms follow the spec exactly — `le(k)` passes iff
`value ≤ k`, `lt(k)` iff `value < k`, `ge(k)` iff `value ≥ k`, `gt(k)` iff
`value > k` — so `le`/`ge` boundaries are inclusive and `lt`/`gt` exclusive;
a full validation of input `-5` against `ge: -5` succeeds and returns `-5`. -/
theorem comparison_predicates_match_spec (k x : IntValue) :
    (checkLe (some k) x = none ↔ x.toInt ≤ k.toInt) ∧
    (checkLt (some k) x = none ↔ x.toInt < k.toInt) ∧
    (checkGe (some k) x = none ↔ k.toInt ≤ x.toInt) ∧
    (checkGt (some k) x = none ↔ k.toInt < x.toInt) ∧
    ((ConstrainedIntValidator.validate
        ⟨false, none, none, none, some (IntValue.Small (-5)), none⟩
        (fun _ => Except.ok ⟨IntValue.Small (-5), Exactness.Exact⟩) state0).2 =
      Except.ok (IntValue.Small (-5))) := by
  refine ⟨?_, ?_, ?_, ?_, rfl⟩
  · by_cases hk : k.toInt < x.toInt <;> simp [checkLe, IntValue.gtb, hk] <;> omega
  · by_cases hk : k.toInt ≤ x.toInt <;> simp [checkLt, IntValue.geb, hk] <;> omega
  · by_cases hk : x.toInt < k.toInt <;> simp [checkGe, IntValue.ltb, hk] <;> omega
  · by_cases hk : x.toInt ≤ k.toInt <;> simp [checkGt, IntValue.leb, hk] <;> omega

/-- C5: with a nonzero configured multiple `m` (zero is forbidden upstream),
the `multiple_of` arm passes iff the truncated remainder of the value by `m`
is zero; the comparison against the freshly built `Int::Big(BigInt::from(0))`
is sound because carrier equality is cross-variant — a remainder of either
variant carrying `r` equals `Big 0` iff `r = 0`. -/
theorem multiple_of_tmod_zero (m x : IntValue) (hm : m.toInt ≠ 0) :
    (checkMultipleOf (some m) x = none ↔ Int.tmod x.toInt m.toInt = 0) ∧
    (∀ r : Int, (IntValue.Small r).beq (IntValue.Big 0) = true ↔ r = 0) ∧
    (∀ r : Int, (IntValue.Big r).beq (IntValue.Big 0) = true ↔ r = 0) := by
  refine ⟨?_, ?_, ?_⟩
  · by_cases h0 : Int.tmod x.toInt m.toInt = 0
    · simp [checkMultipleOf, IntValue.rem, IntValue.beq, h0]
    · simp [checkMultipleOf, IntValue.rem, IntValue.beq, h0]
  · intro r
    simp [IntValue.beq]
  · intro r
    simp [IntValue.beq]

/-- Witness for C5: multiple 3 and value 9 — the arm passes and the truncated
remainder is zero. -/
theorem multiple_of_tmod_zero_witness :
    (checkMultipleOf (some (IntValue.Small 3)) (IntValue.Small 9) = none ↔
        Int.tmod (IntValue.Small 9).toInt (IntValue.Small 3).toInt = 0) ∧
    (∀ r : Int, (IntValue.Small r).beq (IntValue.Big 0) = true ↔ r = 0) ∧
    (∀ r : Int, (IntValue.Big r).beq (IntValue.Big 0) = true ↔ r = 0) :=
  multiple_of_tmod_zero (IntValue.Small 3) (IntValue.Small 9) (by decide)

/-- C6: the builder selects the constrained variant iff at least one of the
five constraint keys is present in the schema — a presence test, not a
truthiness test, as the second conjunct shows with `le` bound to `0` — and
otherwise builds the unconstrained validator with the resolved strictness. -/
theorem build_dispatch_presence_only (schema : Schema) (config : Option Schema) :
    (IntValidator.build schema config =
      (if ["multiple_of", "le", "lt", "ge", "gt"].any (fun k => (schema.get_item k).isSome)
       then BuiltValidator.constrained (ConstrainedIntValidator.build schema config)
       else BuiltValidator.unconstrained { strict := is_strict schema config })) ∧
    (IntValidator.build [("le", SchemaValue.int (IntValue.Small 0))] none =
      BuiltValidator.constrained
        (ConstrainedIntValidator.build [("le", SchemaValue.int (IntValue.Small 0))] none)) := by
  constructor
  · have hcond : ((schema.get_item "multiple_of").isSome || (schema.get_item "le").isSome ||
        (schema.get_item "lt").isSome || (schema.get_item "ge").isSome ||
        (schema.get_item "gt").isSome) =
        (["multiple_of", "le", "lt", "ge", "gt"].any (fun k => (schema.get_item k).isSome)) := by
      simp [List.any_cons, List.any_nil, Bool.or_assoc]
    simp only [IntValidator.build]
    rw [hcond]
  · rfl

/-- C7: `enumerate_last_partial` yields triples `(index, is_last, item)` in
which the flag is raised at most once per iteration, is raised exactly when
partial mode is active and the index points at the final element (and then
the item is the last element of the underlying sequence), and is never raised
when partial mode is `Off`. -/
theorem enumerate_last_flag_spec {α : Type} (p : PartialMode) (l : List α) :
    ((EnumerateLastPartial.toList p l).countP (fun t => t.2.1) ≤ 1) ∧
    (∀ i b x, (i, b, x) ∈ EnumerateLastPartial.toList p l →
        (b = true ↔ (p.is_active = true ∧ i + 1 = l.length))) ∧
    (∀ i b x, (i, b, x) ∈ EnumerateLastPartial.toList p l → b = true →
        l.getLast? = some x) ∧
    (p = PartialMode.Off →
      ∀ i b x, (i, b, x) ∈ EnumerateLastPartial.toList p l → b = false) := by
  cases l with
  | nil =>
      refine ⟨?_, ?_, ?_, ?_⟩ <;>
        simp [EnumerateLastPartial.toList, EnumerateLastPartial.toListFrom]
  | cons a rest =>
      have hmem := toListFrom_mem p rest 0 a
      have hcount := toListFrom_countP p rest 0 a
      have hl : EnumerateLastPartial.toList p (a :: rest) =
          EnumerateLastPartial.toListFrom p 0 (some a) rest := rfl
      refine ⟨?_, ?_, ?_, ?_⟩
      · rw [hl]
        exact hcount
      · intro i b x hm
        rw [hl] at hm
        have h := (hmem i b x hm).1
        constructor
        · intro hb
          obtain ⟨ha, hi⟩ := h.mp hb
          refine ⟨ha, ?_⟩
          simp only [List.length_cons]
          omega
        · rintro ⟨ha, hi⟩
          refine h.mpr ⟨ha, ?_⟩
          simp only [List.length_cons] at hi
          omega
      · intro i b x hm hb
        rw [hl] at hm
        exact (hmem i b x hm).2 hb
      · intro hp i b x hm
        rw [hl] at hm
        cases b with
        | false => rfl
        | true =>
            have hact := ((hmem i true x hm).1.mp rfl).1
            rw [hp] at hact
            simp [PartialMode.is_active] at hact

/-- Witness for C7: with partial mode `On` and the two-element sequence
`[10, 20]`, the second triple is `(1, true, 20)` and the flag equivalence
holds there. -/
theorem enumerate_last_flag_spec_witness :
    ((1, true, (20 : Nat)) ∈ EnumerateLastPartial.toList PartialMode.On [10, 20]) ∧
    (true = true ↔ (PartialMode.On.is_active = true ∧ 1 + 1 = ([10, 20] : List Nat).length)) :=
  ⟨by decide, (enumerate_last_flag_spec PartialMode.On [10, 20]).2.1 1 true 20 (by decide)⟩

/-- C8: exactness is monotone non-increasing — from a tracked level `some e`,
`floor_exactness` yields `some (minE e obs)` whose rank never exceeds the rank
of `e`; and a `none` exactness is never replaced by any later state
operation: `floor_exactness` keeps it `none`, `add_fields_set` does not touch
exactness, and neither the rebinding handle's creation nor its restoring drop
does. -/
theorem floor_exactness_monotone (s : ValidationState) (o : Exactness) :
    (∀ e, s.exactness = some e →
        (s.floor_exactness o).exactness = some (e.minE o) ∧ (e.minE o).rank ≤ e.rank) ∧
    (s.exactness = none →
        ((s.floor_exactness o).exactness = none ∧
         (∀ n, (s.add_fields_set n).exactness = none) ∧
         (∀ f : Extra → Extra,
            (s.rebind_extra f).state.exactness = none ∧
            (s.rebind_extra f).drop.exactness = none))) := by
  constructor
  · intro e he
    constructor
    · rw [floor_exactness_exactness, he]
      rfl
    · cases e <;> cases o <;> simp [Exactness.minE, Exactness.rank]
  · intro he
    refine ⟨?_, fun n => ?_, fun f => ⟨he, he⟩⟩
    · rw [floor_exactness_exactness, he]
      rfl
    · exact he

/-- Witness for C8: a state tracking `Exact` floored by a `Lax` observation
lands at `some (minE Exact Lax)` with a rank no larger than the rank of
`Exact`. -/
theorem floor_exactness_monotone_witness :
    (({ state0 with exactness := some Exactness.Exact } : ValidationState).floor_exactness
        Exactness.Lax).exactness = some (Exactness.Exact.minE Exactness.Lax) ∧
      (Exactness.Exact.minE Exactness.Lax).rank ≤ Exactness.Exact.rank :=
  (floor_exactness_monotone { state0 with exactness := some Exactness.Exact }
      Exactness.Lax).1 Exactness.Exact rfl

/-- C9: the coercion's exactness observation is recorded into the state via
`unpack` before any constraint predicate runs: whenever coercion succeeds,
the state returned by `validate` is exactly the floored state, in particular
also when a constraint error is returned — the update is not rolled back. -/
theorem exactness_recorded_before_constraints (v : ConstrainedIntValidator)
    (input : Bool → Except ValError IntMatch) (s : ValidationState) (m : IntMatch)
    (h : input (s.strict_or v.strict) = Except.ok m) :
    ((v.validate input s).1 = s.floor_exactness m.exactness) ∧
    (∀ e, (v.validate input s).2 = Except.error e →
        ((v.validate input s).1).exactness = (s.floor_exactness m.exactness).exactness) := by
  have h1 : (v.validate input s).1 = s.floor_exactness m.exactness := by
    rcases hc : v.checkConstraints m.value with - | err <;>
      simp [ConstrainedIntValidator.validate, h, IntMatch.unpack, hc]
  exact ⟨h1, fun e _ => by rw [h1]⟩

/-- Witness for C9: an unconstrained-bounds validator over a fresh state with
a `Lax` coercion observation returns the floored state. -/
theorem exactness_recorded_before_constraints_witness :
    (ConstrainedIntValidator.validate ⟨false, none, none, none, none, none⟩
        (fun _ => Except.ok ⟨IntValue.Small 7, Exactness.Lax⟩) state0).1 =
      state0.floor_exactness Exactness.Lax :=
  (exactness_recorded_before_constraints ⟨false, none, none, none, none, none⟩
      (fun _ => Except.ok ⟨IntValue.Small 7, Exactness.Lax⟩) state0
      ⟨IntValue.Small 7, Exactness.Lax⟩ rfl).1

/-- C10: `add_fields_set(n)` is an additive counter with lazy initialization:
from `None` it yields `Some n`, from `Some c` it yields `Some (c + n)`; in
particular `add_fields_set(0)` on an untracked state yields `Some 0`, which
starts the tally rather than being a no-op. -/
theorem add_fields_set_additive (s : ValidationState) (n : Nat) :
    (s.fields_set_count = none → (s.add_fields_set n).fields_set_count = some n) ∧
    (∀ c, s.fields_set_count = some c →
        (s.add_fields_set n).fields_set_count = some (c + n)) ∧
    (s.fields_set_count = none → (s.add_fields_set 0).fields_set_count = some 0) := by
  refine ⟨fun h => ?_, fun c h => ?_, fun h => ?_⟩ <;>
    simp [ValidationState.add_fields_set, h]

/-- Witness for C10: a fresh state has no tally; `add_fields_set 0` starts it
at `Some 0`. -/
theorem add_fields_set_additive_witness :
    (state0.add_fields_set 0).fields_set_count = some 0 :=
  (add_fields_set_additive state0 0).2.2 rfl
